import Mathlib

/-!
Verification of src/box_blur.cpp against its natural-language specification.

This file gives a shallow embedding of the parts of the program the claims
are about: the global circular work buffer (`add_buffer` / `get_buffer`,
lines 45-64) together with the wait-loop guards of its callers
(`producer_func` lines 231-246, `consumer_func` lines 263-277), the
box-blur kernel `apply_box_blur` (lines 126-179), the output-path
derivation of `consumer_func` (line 285), the consumer's per-item loop
(lines 258-288), and a small-step interleaving model of the mutex /
condition-variable synchronization.
-/

set_option maxRecDepth 8000

namespace BoxBlur

/-! ## Circular buffer (box_blur.cpp lines 43-64) -/

/-- BUFFER_SIZE from box_blur.cpp line 45 (`static const unsigned BUFFER_SIZE = 1000`). -/
def BUFFER_SIZE : Nat := 1000

/-- modulus of the C++ type `unsigned` (32 bits), the declared type of `counter`. -/
def U32 : Nat := 4294967296

/-- shared circular-buffer state of box_blur.cpp lines 46-48:
`string buffer[BUFFER_SIZE]`, the unsigned `counter`, and the indices
`in` and `out` (named `inIdx` / `outIdx` here because `in` is reserved).
The backing array is modelled as a total function from indices to strings;
the code only ever touches indices below BUFFER_SIZE. -/
structure BufState where
  buffer : Nat → String
  counter : Nat
  inIdx : Nat
  outIdx : Nat

/-- initial state: `counter = 0`, `in = out = 0`, every slot default-initialized
to the empty string (C++ value-initialization of the global array). -/
def initState : BufState :=
  { buffer := fun _ => "", counter := 0, inIdx := 0, outIdx := 0 }

/-- add_buffer (lines 50-55): `buffer[in] = i; in = (in+1) % BUFFER_SIZE; counter++;`.
The increment of the unsigned counter is taken modulo 2^32. -/
def add_buffer (i : String) (s : BufState) : BufState :=
  { buffer := fun j => if j = s.inIdx then i else s.buffer j
    counter := (s.counter + 1) % U32
    inIdx := (s.inIdx + 1) % BUFFER_SIZE
    outIdx := s.outIdx }

/-- get_buffer (lines 57-64): `v = buffer[out]; out = (out+1) % BUFFER_SIZE; counter--;`.
The decrement of the unsigned counter wraps modulo 2^32: on counter = 0 it
produces 2^32 - 1. Returns the read string together with the new state. -/
def get_buffer (s : BufState) : String × BufState :=
  (s.buffer s.outIdx,
    { buffer := s.buffer
      counter := (s.counter + (U32 - 1)) % U32
      inIdx := s.inIdx
      outIdx := (s.outIdx + 1) % BUFFER_SIZE })

/-- states reachable from the empty initial state by guarded operations:
a push happens only when the producer's wait loop `while (counter == BUFFER_SIZE)`
(line 234) has exited, i.e. counter differs from BUFFER_SIZE, and a pop happens only
when the consumer's wait loop `while (counter == 0)` (line 266) has exited,
i.e. counter is nonzero. -/
inductive Reachable : BufState → Prop
  | init : Reachable initState
  | push (s : BufState) (i : String) : Reachable s → s.counter ≠ BUFFER_SIZE →
      Reachable (add_buffer i s)
  | pop (s : BufState) : Reachable s → s.counter ≠ 0 →
      Reachable (get_buffer s).2

/-- C1: for every sequence of interleaved push/pop operations guarded by the
callers' wait loops, starting from the empty initial state, the capacity
invariant 0 <= counter <= BUFFER_SIZE holds after every operation. -/
theorem counter_le_capacity (s : BufState) (h : Reachable s) :
    0 ≤ s.counter ∧ s.counter ≤ BUFFER_SIZE := by
  refine ⟨Nat.zero_le _, ?_⟩
  induction h with
  | init => decide
  | push s i _ hne ih =>
      simp only [add_buffer, BUFFER_SIZE, U32] at *
      omega
  | pop s _ hne ih =>
      simp only [get_buffer, BUFFER_SIZE, U32] at *
      omega

/-- witness for C1: the state after pushing one item and popping it is reachable
and satisfies the invariant. -/
theorem counter_le_capacity_witness :
    0 ≤ (get_buffer (add_buffer "a" initState)).2.counter ∧
      (get_buffer (add_buffer "a" initState)).2.counter ≤ BUFFER_SIZE :=
  counter_le_capacity _
    (Reachable.pop _ (Reachable.push _ "a" Reachable.init (by decide)) (by decide))

/-- C10: get_buffer performs no emptiness check of its own; called in a state
with counter = 0 it sets the unsigned counter to 2^32 - 1 (decrement modulo
2^32), so the dequeue operation alone does not preserve counter <= BUFFER_SIZE. -/
theorem get_buffer_empty_wraps (s : BufState) (h : s.counter = 0) :
    (get_buffer s).2.counter = 2 ^ 32 - 1 ∧ ¬ (get_buffer s).2.counter ≤ BUFFER_SIZE := by
  simp only [get_buffer, U32, BUFFER_SIZE, h]
  decide

/-- witness for C10: popping the empty initial state wraps the counter to 2^32 - 1. -/
theorem get_buffer_empty_wraps_witness :
    (get_buffer initState).2.counter = 2 ^ 32 - 1 ∧
      ¬ (get_buffer initState).2.counter ≤ BUFFER_SIZE :=
  get_buffer_empty_wraps initState rfl

/-! ## FIFO order (C2) -/

/-- one queue operation as issued by a caller thread. -/
inductive QOp
  | push (i : String)
  | pop

/-- run of guarded operations from a state: a push fires only when the counter
differs from BUFFER_SIZE and a pop only when the counter is nonzero (the
callers' wait-loop exit conditions); a run violating a guard is undefined
(`none`). Returns the final state and the list of strings the pops returned,
in order. -/
def runQueue : BufState → List QOp → Option (BufState × List String)
  | s, [] => some (s, [])
  | s, QOp.push i :: ops =>
      if s.counter = BUFFER_SIZE then none
      else runQueue (add_buffer i s) ops
  | s, QOp.pop :: ops =>
      if s.counter = 0 then none
      else
        match runQueue (get_buffer s).2 ops with
        | some (s', outs) => some (s', (get_buffer s).1 :: outs)
        | none => none

/-- popped strings of a guarded run from the empty initial state. -/
def runOuts (ops : List QOp) : Option (List String) :=
  (runQueue initState ops).map (fun p => p.2)

/-- pushed items of an operation list, in order. -/
def pushedItems : List QOp → List String
  | [] => []
  | QOp.push i :: ops => i :: pushedItems ops
  | QOp.pop :: ops => pushedItems ops

/-- abstraction of the circular-buffer state by its list of pending items:
`l` lists the counter-many stored strings clockwise from `out`, the counter
is within capacity, `out` is in range, `in` sits counter slots past `out`. -/
structure Pending (s : BufState) (l : List String) : Prop where
  len : l.length = s.counter
  le_cap : s.counter ≤ BUFFER_SIZE
  out_lt : s.outIdx < BUFFER_SIZE
  in_eq : s.inIdx = (s.outIdx + s.counter) % BUFFER_SIZE
  content : ∀ j, (hj : j < l.length) →
    s.buffer ((s.outIdx + j) % BUFFER_SIZE) = l.get ⟨j, hj⟩

theorem pending_init : Pending initState [] := by
  refine ⟨rfl, by decide, by decide, by decide, ?_⟩
  intro j hj
  simp at hj

theorem pending_push (s : BufState) (l : List String) (i : String)
    (hp : Pending s l) (hne : s.counter ≠ BUFFER_SIZE) :
    Pending (add_buffer i s) (l ++ [i]) := by
  have hcap := hp.le_cap
  have hlen := hp.len
  have hcnt : s.counter < BUFFER_SIZE := lt_of_le_of_ne hcap hne
  have hBS : BUFFER_SIZE = 1000 := rfl
  have hU : U32 = 4294967296 := rfl
  have hc1000 : s.counter < 1000 := by rw [hBS] at hcnt; exact hcnt
  have hcounter : (add_buffer i s).counter = s.counter + 1 := by
    show (s.counter + 1) % U32 = s.counter + 1
    rw [hU]
    omega
  refine ⟨?_, ?_, ?_, ?_, ?_⟩
  · rw [hcounter, List.length_append, List.length_singleton, hlen]
  · rw [hcounter]; omega
  · exact hp.out_lt
  · show (s.inIdx + 1) % BUFFER_SIZE = (s.outIdx + (add_buffer i s).counter) % BUFFER_SIZE
    rw [hcounter, hp.in_eq, Nat.mod_add_mod, Nat.add_assoc]
  · intro j hj
    rw [List.length_append, List.length_singleton, hlen] at hj
    show (if (s.outIdx + j) % BUFFER_SIZE = s.inIdx then i else
      s.buffer ((s.outIdx + j) % BUFFER_SIZE)) = (l ++ [i]).get ⟨j, _⟩
    rcases Nat.lt_or_ge j s.counter with hjlt | hjge
    · have hne2 : (s.outIdx + j) % BUFFER_SIZE ≠ s.inIdx := by
        rw [hp.in_eq, hBS]
        intro hEq
        omega
      rw [if_neg hne2]
      have hjl : j < l.length := by omega
      have := hp.content j hjl
      rw [this]
      exact (List.get_append_left _ _ _).symm
    · have hjeq : j = s.counter := by omega
      have heq : (s.outIdx + j) % BUFFER_SIZE = s.inIdx := by
        rw [hp.in_eq, hjeq]
      rw [if_pos heq]
      have hjl : j = l.length := by omega
      subst hjl
      simp

theorem pending_pop (s : BufState) (x : String) (l : List String)
    (hp : Pending s (x :: l)) :
    (get_buffer s).1 = x ∧ Pending (get_buffer s).2 l := by
  obtain ⟨b, c, i, o⟩ := s
  obtain ⟨hlen, hcap, hout, hineq, hcontent⟩ := hp
  dsimp only at hlen hcap hout hineq hcontent
  simp only [List.length_cons] at hlen
  have hBS : BUFFER_SIZE = 1000 := rfl
  have hU : U32 = 4294967296 := rfl
  rw [hBS] at hcap hout hineq
  simp only [get_buffer]
  have hcnt : 1 ≤ c := by omega
  have hcounter : (c + (U32 - 1)) % U32 = c - 1 := by
    rw [hU]
    omega
  constructor
  · have h0 := hcontent 0 (by simp)
    rw [Nat.add_zero, hBS, Nat.mod_eq_of_lt hout] at h0
    simpa using h0
  · refine ⟨?_, ?_, ?_, ?_, ?_⟩
    · dsimp only
      rw [hcounter]
      omega
    · dsimp only
      rw [hcounter, hBS]
      omega
    · dsimp only
      rw [hBS]
      omega
    · dsimp only
      rw [hcounter, hBS, hineq]
      omega
    · intro j hj
      dsimp only
      rw [hBS]
      have hmod : ((o + 1) % 1000 + j) % 1000 = (o + (j + 1)) % 1000 := by
        omega
      rw [hmod]
      have hj1 : j + 1 < (x :: l).length := by simp; omega
      have hc1 := hcontent (j + 1) hj1
      rw [hBS] at hc1
      rw [hc1]
      simp

theorem runQueue_pending : ∀ (ops : List QOp) (s : BufState) (l : List String)
    (s' : BufState) (outs : List String),
    Pending s l → runQueue s ops = some (s', outs) →
    ∃ l', Pending s' l' ∧ l ++ pushedItems ops = outs ++ l' := by
  intro ops
  induction ops with
  | nil =>
      intro s l s' outs hp hrun
      simp only [runQueue, Option.some.injEq, Prod.mk.injEq] at hrun
      obtain ⟨hs, houts⟩ := hrun
      subst hs; subst houts
      exact ⟨l, hp, by simp [pushedItems]⟩
  | cons op ops ih =>
      intro s l s' outs hp hrun
      cases op with
      | push i =>
          simp only [runQueue] at hrun
          by_cases hfull : s.counter = BUFFER_SIZE
          · rw [if_pos hfull] at hrun; exact absurd hrun (by simp)
          · rw [if_neg hfull] at hrun
            obtain ⟨l', hl', heq⟩ := ih _ _ _ _ (pending_push s l i hp hfull) hrun
            refine ⟨l', hl', ?_⟩
            simp only [pushedItems]
            rw [← heq]
            simp
      | pop =>
          simp only [runQueue] at hrun
          by_cases hzero : s.counter = 0
          · rw [if_pos hzero] at hrun; exact absurd hrun (by simp)
          · rw [if_neg hzero] at hrun
            cases l with
            | nil =>
                exfalso
                have := hp.len
                simp at this
                exact hzero this.symm
            | cons x l0 =>
                obtain ⟨hval, hp2⟩ := pending_pop s x l0 hp
                cases hrest : runQueue (get_buffer s).2 ops with
                | none => rw [hrest] at hrun; exact absurd hrun (by simp)
                | some p =>
                    obtain ⟨s2, outs0⟩ := p
                    rw [hrest] at hrun
                    simp only [Option.some.injEq, Prod.mk.injEq] at hrun
                    obtain ⟨hs, houts⟩ := hrun
                    subst hs
                    obtain ⟨l', hl', heq⟩ := ih _ _ _ _ hp2 hrest
                    refine ⟨l', hl', ?_⟩
                    rw [← houts, hval]
                    simp only [pushedItems, List.cons_append, List.append_assoc] at *
                    rw [heq]

/-- C2: FIFO with a single producer. For every sequence of guarded pushes and
pops from the empty initial state in which every pop finds the queue nonempty
and every push finds it below capacity (otherwise runOuts is none), the i-th
popped string equals the i-th pushed string. -/
theorem fifo_single_producer (ops : List QOp) (outs : List String)
    (h : runOuts ops = some outs) (i : Nat)
    (hi : i < outs.length) (hi' : i < (pushedItems ops).length) :
    outs.get ⟨i, hi⟩ = (pushedItems ops).get ⟨i, hi'⟩ := by
  unfold runOuts at h
  cases hrun : runQueue initState ops with
  | none =>
      rw [hrun] at h
      exact absurd h (by simp)
  | some p =>
      obtain ⟨s', outs'⟩ := p
      rw [hrun] at h
      simp only [Option.map_some', Option.some.injEq] at h
      subst h
      obtain ⟨l', _, heq⟩ :=
        runQueue_pending ops initState [] s' outs' pending_init hrun
      simp only [List.nil_append] at heq
      have hgoal : (pushedItems ops).get ⟨i, hi'⟩ = outs'.get ⟨i, hi⟩ := by
        have hcast := List.get_of_eq heq ⟨i, hi'⟩
        rw [hcast]
        exact List.get_append_left _ _ _
      exact hgoal.symm

/-- witness for C2: pushing "a" then "b" and popping twice returns "a" then "b";
the second pop (index 1) returns the second pushed item. -/
theorem fifo_single_producer_witness :
    (["a", "b"] : List String).get ⟨1, by decide⟩ =
      (pushedItems [QOp.push "a", QOp.push "b", QOp.pop, QOp.pop]).get ⟨1, by decide⟩ :=
  fifo_single_producer [QOp.push "a", QOp.push "b", QOp.pop, QOp.pop]
    ["a", "b"] (by decide) 1 (by decide) (by decide)

/-! ## Box-blur kernel (box_blur.cpp lines 126-179) -/

/-- FILTER_SIZE from box_blur.cpp line 20 (`static const int FILTER_SIZE = 5`). -/
def FILTER_SIZE : Nat := 5

/-- element access `image[r][c]` on a channel grid, as the C++ code performs
it with `vector::operator[]`; an out-of-range access (undefined behavior in
C++) defaults to 0 here, and every claim keeps all accesses in range. -/
def pix (image : List (List Nat)) (r c : Nat) : Nat :=
  (image.getD r []).getD c 0

/-- window of samples read by the inner accumulation loops of apply_box_blur
(lines 146-151): offsets k_row, k_col range over -pad .. pad in row-major
order; entry (i, j) of this list is `image[row - pad + i][col - pad + j]`,
which for `row, col >= pad` is the C++ `image[row + k_row][col + k_col]`. -/
def window (image : List (List Nat)) (pad row col : Nat) : List Nat :=
  (List.range (2 * pad + 1)).flatMap (fun i =>
    (List.range (2 * pad + 1)).map (fun j =>
      pix image (row - pad + i) (col - pad + j)))

/-- accumulated sum of the window (the `sum` variable of lines 143-151).
The C++ code accumulates into a float; for 8-bit samples and the filter
sizes of this program the sum stays below 2^24, where float addition of
integers is exact, so the sum is modelled by exact natural arithmetic. -/
def windowSum (image : List (List Nat)) (pad row col : Nat) : Nat :=
  (window image pad row col).sum

/-- apply_box_blur (lines 126-179). The imperative code takes
`height = image.size()`, `width = image[0].size()`, `pad = filter_size / 2`,
zero-initializes the result, writes the window average at every interior
pixel (rows pad .. height-pad-1, cols pad .. width-pad-1, lines 140-159),
then copies the border pixels within pad of any edge from the input
(lines 161-174). The border loops cover exactly the complement of the
interior region, so the result is expressed pointwise: border pixels copy
the input, interior pixels hold the average; no pixel is left at its zero
initialization. The float average `sum / (filter_size * filter_size)` is
assigned to a uint8_t, truncating toward zero; for 8-bit samples the float
quotient's distance to an integer is at least 1/filter_size^2, far above
the float rounding error at these magnitudes, so the truncated float
quotient equals the natural floor division used here. The C++ locals
`height`, `width` and `pad` are inlined as `image.length`,
`(image.headD []).length` and `filter_size / 2`. -/
def apply_box_blur (image : List (List Nat)) (filter_size : Nat) : List (List Nat) :=
  (List.range image.length).map (fun row =>
    (List.range (image.headD []).length).map (fun col =>
      if row < filter_size / 2 ∨ image.length ≤ row + filter_size / 2 ∨
          col < filter_size / 2 ∨ (image.headD []).length ≤ col + filter_size / 2 then
        pix image row col
      else
        windowSum image (filter_size / 2) row col / (filter_size * filter_size)))

theorem apply_box_blur_length (image : List (List Nat)) (k : Nat) :
    (apply_box_blur image k).length = image.length := by
  simp [apply_box_blur]

theorem apply_box_blur_row_length (image : List (List Nat)) (k : Nat) :
    ∀ r ∈ apply_box_blur image k, r.length = (image.headD []).length := by
  intro r hr
  simp only [apply_box_blur, List.mem_map] at hr
  obtain ⟨row, _, hrow⟩ := hr
  subst hrow
  simp

theorem range_map_getD {β : Type} (n : Nat) (f : Nat → β) (d : β) (i : Nat)
    (h : i < n) :
    ((List.range n).map f).getD i d = f i := by
  rw [List.getD_eq_getElem _ _ (by simpa using h), List.getElem_map,
    List.getElem_range]

theorem replicate_getD {β : Type} (n : Nat) (a : β) (d : β) (i : Nat)
    (h : i < n) :
    (List.replicate n a).getD i d = a := by
  rw [List.getD_eq_getElem _ _ (by simpa using h), List.getElem_replicate]

theorem apply_box_blur_pix (image : List (List Nat)) (k row col : Nat)
    (hrow : row < image.length) (hcol : col < (image.headD []).length) :
    pix (apply_box_blur image k) row col =
      if row < k / 2 ∨ image.length ≤ row + k / 2 ∨
          col < k / 2 ∨ (image.headD []).length ≤ col + k / 2 then
        pix image row col
      else
        windowSum image (k / 2) row col / (k * k) := by
  unfold pix apply_box_blur
  rw [range_map_getD image.length _ [] row hrow]
  rw [range_map_getD (image.headD []).length _ 0 col hcol]
  rfl

theorem window_length (image : List (List Nat)) (pad row col : Nat) :
    (window image pad row col).length = (2 * pad + 1) * (2 * pad + 1) := by
  unfold window
  rw [List.length_flatMap]
  have h1 : List.map (List.length ∘ fun i =>
      (List.range (2 * pad + 1)).map (fun j =>
        pix image (row - pad + i) (col - pad + j))) (List.range (2 * pad + 1))
      = List.replicate (2 * pad + 1) (2 * pad + 1) := by
    rw [show (List.replicate (2 * pad + 1) (2 * pad + 1))
        = List.replicate (List.range (2 * pad + 1)).length (2 * pad + 1) by
      rw [List.length_range]]
    rw [← List.map_const']
    apply List.map_congr_left
    intro a _
    simp
  rw [h1, List.sum_replicate, smul_eq_mul]

/-- C3: for a rectangular H x W channel grid with H, W >= k and odd positive
filter size k, the output of apply_box_blur at an interior pixel (row, col)
(with pad <= row < H - pad, pad <= col < W - pad, pad = k / 2) equals the
sum of the k x k window of input samples centered at (row, col) divided by
k * k with the quotient truncated — the truncated arithmetic mean of the
neighborhood — the window holding exactly k * k samples. -/
theorem interior_pixel_mean (image : List (List Nat)) (k H W row col : Nat)
    (hk : k % 2 = 1) (hH : image.length = H)
    (hW : ∀ r ∈ image, r.length = W)
    (hHk : k ≤ H) (hWk : k ≤ W)
    (hr1 : k / 2 ≤ row) (hr2 : row + k / 2 < H)
    (hc1 : k / 2 ≤ col) (hc2 : col + k / 2 < W) :
    pix (apply_box_blur image k) row col
        = (window image (k / 2) row col).sum / (k * k) ∧
      (window image (k / 2) row col).length = k * k := by
  have hk1 : 1 ≤ k := by omega
  have hne : image ≠ [] := by
    intro h
    rw [h] at hH
    simp at hH
    omega
  have hhead : (image.headD []).length = W := by
    cases image with
    | nil => exact absurd rfl hne
    | cons a t => exact hW a (by simp)
  constructor
  · rw [apply_box_blur_pix image k row col (by omega) (by rw [hhead]; omega)]
    rw [if_neg (by rw [hH, hhead]; omega)]
    rfl
  · rw [window_length]
    have : 2 * (k / 2) + 1 = k := by omega
    rw [this]

/-- concrete 7 x 7 grid with 49 distinct sample values (value 5 r + c at
pixel (r, c)), used to witness the interior-mean and border claims. -/
def grid7 : List (List Nat) :=
  (List.range 7).map (fun r => (List.range 7).map (fun c => 5 * r + c))

/-- witness for C3: on the 7 x 7 grid of distinct values, the blurred value
at (3, 3) with k = 5 is the truncated mean of the 25 window samples. -/
theorem interior_pixel_mean_witness :
    pix (apply_box_blur grid7 5) 3 3 = (window grid7 2 3 3).sum / (5 * 5) ∧
      (window grid7 2 3 3).length = 5 * 5 :=
  interior_pixel_mean grid7 5 7 7 3 3 (by decide) (by decide) (by decide)
    (by decide) (by decide) (by decide) (by decide) (by decide) (by decide)

/-- C4: for a rectangular H x W channel grid with H, W >= k and odd positive
filter size k, every border pixel of apply_box_blur's output (within
pad = k / 2 of any edge) is identical to the corresponding input pixel, and
the output grid has the same height H and width W as the input. -/
theorem border_passthrough (image : List (List Nat)) (k H W row col : Nat)
    (hk : k % 2 = 1) (hH : image.length = H)
    (hW : ∀ r ∈ image, r.length = W)
    (hHk : k ≤ H) (hWk : k ≤ W) (hrow : row < H) (hcol : col < W)
    (hborder : row < k / 2 ∨ H ≤ row + k / 2 ∨ col < k / 2 ∨ W ≤ col + k / 2) :
    pix (apply_box_blur image k) row col = pix image row col ∧
      (apply_box_blur image k).length = H ∧
      ∀ r ∈ apply_box_blur image k, r.length = W := by
  have hk1 : 1 ≤ k := by omega
  have hne : image ≠ [] := by
    intro h
    rw [h] at hH
    simp at hH
    omega
  have hhead : (image.headD []).length = W := by
    cases image with
    | nil => exact absurd rfl hne
    | cons a t => exact hW a (by simp)
  refine ⟨?_, ?_, ?_⟩
  · rw [apply_box_blur_pix image k row col (by omega) (by rw [hhead]; omega)]
    rw [if_pos (by rw [hH, hhead]; omega)]
  · rw [apply_box_blur_length, hH]
  · intro r hr
    rw [apply_box_blur_row_length image k r hr, hhead]

/-- witness for C4: on the 7 x 7 grid of distinct values with k = 5, the
corner pixel (0, 0) passes through unchanged and the shape is preserved. -/
theorem border_passthrough_witness :
    pix (apply_box_blur grid7 5) 0 0 = pix grid7 0 0 ∧
      (apply_box_blur grid7 5).length = 7 ∧
      ∀ r ∈ apply_box_blur grid7 5, r.length = 7 :=
  border_passthrough grid7 5 7 7 0 0 (by decide) (by decide) (by decide)
    (by decide) (by decide) (by decide) (by decide) (by decide)

theorem sum_flatMap {α : Type} (l : List α) (f : α → List Nat) :
    (l.flatMap f).sum = (l.map (fun a => (f a).sum)).sum := by
  rw [List.flatMap, List.sum_flatten, List.map_map]
  rfl

theorem pix_replicate (H W c r cc : Nat) (hr : r < H) (hcc : cc < W) :
    pix (List.replicate H (List.replicate W c)) r cc = c := by
  unfold pix
  rw [replicate_getD H (List.replicate W c) [] r hr]
  rw [replicate_getD W c 0 cc hcc]

/-- C5: a uniform grid is a fixed point of apply_box_blur: for every constant
H x W grid of value c with H, W >= k and odd positive k, the output equals
the input at every pixel, interior and border alike. -/
theorem uniform_fixed_point (H W c k : Nat) (hk : k % 2 = 1)
    (hHk : k ≤ H) (hWk : k ≤ W) :
    apply_box_blur (List.replicate H (List.replicate W c)) k
      = List.replicate H (List.replicate W c) := by
  have hk1 : 1 ≤ k := by omega
  have hkk : 2 * (k / 2) + 1 = k := by omega
  have hhead : (List.replicate H (List.replicate W c)).headD [] = List.replicate W c := by
    obtain ⟨m, rfl⟩ : ∃ m, H = m + 1 := ⟨H - 1, by omega⟩
    rw [List.replicate_succ]
    rfl
  have hwinsum : ∀ row col, k / 2 ≤ row → row + k / 2 < H → k / 2 ≤ col → col + k / 2 < W →
      windowSum (List.replicate H (List.replicate W c)) (k / 2) row col = k * k * c := by
    intro row col h1 h2 h3 h4
    unfold windowSum window
    rw [sum_flatMap]
    have hinner : ∀ i ∈ List.range (2 * (k / 2) + 1),
        ((List.range (2 * (k / 2) + 1)).map (fun j =>
          pix (List.replicate H (List.replicate W c)) (row - k / 2 + i) (col - k / 2 + j))).sum
          = (2 * (k / 2) + 1) * c := by
      intro i hi
      rw [List.mem_range] at hi
      have hconst : (List.range (2 * (k / 2) + 1)).map (fun j =>
          pix (List.replicate H (List.replicate W c)) (row - k / 2 + i) (col - k / 2 + j))
          = List.replicate (2 * (k / 2) + 1) c := by
        rw [show List.replicate (2 * (k / 2) + 1) c
            = List.replicate (List.range (2 * (k / 2) + 1)).length c by
          rw [List.length_range]]
        rw [← List.map_const']
        apply List.map_congr_left
        intro j hj
        rw [List.mem_range] at hj
        apply pix_replicate <;> omega
      rw [hconst, List.sum_replicate, smul_eq_mul]
    have houter : List.map (fun i => ((List.range (2 * (k / 2) + 1)).map (fun j =>
        pix (List.replicate H (List.replicate W c)) (row - k / 2 + i) (col - k / 2 + j))).sum)
        (List.range (2 * (k / 2) + 1))
        = List.replicate (2 * (k / 2) + 1) ((2 * (k / 2) + 1) * c) := by
      rw [show List.replicate (2 * (k / 2) + 1) ((2 * (k / 2) + 1) * c)
          = List.replicate (List.range (2 * (k / 2) + 1)).length ((2 * (k / 2) + 1) * c) by
        rw [List.length_range]]
      rw [← List.map_const']
      exact List.map_congr_left hinner
    rw [houter, List.sum_replicate, smul_eq_mul, hkk]
    ring
  apply List.ext_getElem
  · rw [apply_box_blur_length]
  · intro row h1 h2
    rw [List.getElem_replicate]
    simp only [apply_box_blur, hhead, List.length_replicate] at h1 ⊢
    rw [List.getElem_map, List.getElem_range]
    have hrow : row < H := by simpa using h2
    have hval : ∀ col ∈ List.range W,
        (if row < k / 2 ∨ H ≤ row + k / 2 ∨ col < k / 2 ∨ W ≤ col + k / 2 then
          pix (List.replicate H (List.replicate W c)) row col
        else
          windowSum (List.replicate H (List.replicate W c)) (k / 2) row col / (k * k)) = c := by
      intro col hcol
      rw [List.mem_range] at hcol
      by_cases hcond : row < k / 2 ∨ H ≤ row + k / 2 ∨ col < k / 2 ∨ W ≤ col + k / 2
      · rw [if_pos hcond]
        exact pix_replicate H W c row col hrow hcol
      · rw [if_neg hcond]
        push_neg at hcond
        rw [hwinsum row col (by omega) (by omega) (by omega) (by omega)]
        rw [Nat.mul_div_cancel_left c (by positivity)]
    calc (List.range W).map (fun col =>
          if row < k / 2 ∨ H ≤ row + k / 2 ∨ col < k / 2 ∨ W ≤ col + k / 2 then
            pix (List.replicate H (List.replicate W c)) row col
          else
            windowSum (List.replicate H (List.replicate W c)) (k / 2) row col / (k * k))
        = (List.range W).map (fun _ => c) := List.map_congr_left hval
      _ = List.replicate W c := by rw [List.map_const', List.length_range]

/-- witness for C5: the 10 x 10 grid of constant value 100 filtered with
k = 5 is returned unchanged. -/
theorem uniform_fixed_point_witness :
    apply_box_blur (List.replicate 10 (List.replicate 10 100)) 5
      = List.replicate 10 (List.replicate 10 100) :=
  uniform_fixed_point 10 10 100 5 (by decide) (by decide) (by decide)

/-- C9: for filter_size = 5 (pad = 2) and a rectangular H x W grid with
H, W >= 2, if H <= 4 or W <= 4 then every pixel lies within pad of an edge:
the interior loop of apply_box_blur never executes, the border-copy loops
cover every pixel, and the output equals the input exactly. -/
theorem small_grid_identity (image : List (List Nat)) (H W : Nat)
    (hH : image.length = H) (hW : ∀ r ∈ image, r.length = W)
    (h2H : 2 ≤ H) (h2W : 2 ≤ W) (hsmall : H ≤ 4 ∨ W ≤ 4) :
    apply_box_blur image FILTER_SIZE = image := by
  have hne : image ≠ [] := by
    intro h
    rw [h] at hH
    simp at hH
    omega
  have hhead : (image.headD []).length = W := by
    cases image with
    | nil => exact absurd rfl hne
    | cons a t => exact hW a (by simp)
  apply List.ext_getElem
  · rw [apply_box_blur_length]
  · intro row h1 h2
    simp only [apply_box_blur, List.getElem_map, List.getElem_range,
      List.length_map, List.length_range] at h1 ⊢
    have hrowH : row < H := by rw [← hH]; exact h2
    have hrlen : image[row].length = W := hW image[row] (List.getElem_mem h2)
    apply List.ext_getElem
    · simp only [List.length_map, List.length_range]
      rw [hhead, hrlen]
    · intro col hc1 hc2
      simp only [List.getElem_map, List.getElem_range, List.length_map,
        List.length_range, hhead] at hc1 ⊢
      have hcolW : col < W := by rw [← hrlen]; exact hc2
      have hcond : row < FILTER_SIZE / 2 ∨ image.length ≤ row + FILTER_SIZE / 2 ∨
          col < FILTER_SIZE / 2 ∨ W ≤ col + FILTER_SIZE / 2 := by
        rw [hH]
        simp only [FILTER_SIZE]
        omega
      rw [if_pos hcond]
      unfold pix
      rw [List.getD_eq_getElem image [] h2]
      exact List.getD_eq_getElem image[row] 0 (by rw [hrlen]; exact hcolW)

/-- concrete 3 x 5 grid used to witness the small-grid identity. -/
def grid35 : List (List Nat) :=
  [[1, 2, 3, 4, 5], [6, 7, 8, 9, 10], [11, 12, 13, 14, 15]]

/-- witness for C9: a 3 x 5 grid (height 3 <= 4) passes through
apply_box_blur with filter size 5 unchanged. -/
theorem small_grid_identity_witness :
    apply_box_blur grid35 FILTER_SIZE = grid35 :=
  small_grid_identity grid35 3 5 (by decide) (by decide) (by decide) (by decide)
    (by decide)

/-! ## Output-path derivation (box_blur.cpp line 285, C7) -/

/-- INPUT_DIRECTORY from box_blur.cpp line 18, as its character list. -/
def INPUT_DIRECTORY : List Char := "../input".toList

/-- OUTPUT_DIRECTORY from box_blur.cpp line 19, as its character list. -/
def OUTPUT_DIRECTORY : List Char := "../output".toList

/-- std::string::find(needle): position of the first occurrence of `need`
as a contiguous substring of the receiver, none for npos (not found). -/
def strFind (need : List Char) : List Char → Option Nat
  | [] => if need = [] then some 0 else none
  | c :: rest =>
      if need.isPrefixOf (c :: rest) then some 0
      else (strFind need rest).map (fun p => p + 1)

/-- std::string::replace(pos, len, repl): the receiver with the `len`
characters starting at `pos` replaced by `repl`. -/
def strReplace (s : List Char) (pos len : Nat) (repl : List Char) : List Char :=
  s.take pos ++ repl ++ s.drop (pos + len)

/-- output-path derivation of consumer_func line 285:
`image_name.replace(image_name.find(INPUT_DIRECTORY), INPUT_DIRECTORY.length(), OUTPUT_DIRECTORY)`.
When find returns npos the C++ replace throws std::out_of_range, modelled
as none. -/
def derive_output_path (image_name : List Char) : Option (List Char) :=
  (strFind INPUT_DIRECTORY image_name).map
    (fun p => strReplace image_name p INPUT_DIRECTORY.length OUTPUT_DIRECTORY)

theorem isPrefixOf_append (l t : List Char) : l.isPrefixOf (l ++ t) = true := by
  induction l with
  | nil => simp [List.isPrefixOf]
  | cons c cs ih => simp [List.isPrefixOf, ih]

/-- C7: for every input path that begins with the input-root prefix
"../input", the derived output path is the input path with that prefix
replaced by "../output", keeping the rest (the base filename) unchanged. -/
theorem output_path_replaces_root (image_name rest : List Char)
    (h : image_name = INPUT_DIRECTORY ++ rest) :
    derive_output_path image_name = some (OUTPUT_DIRECTORY ++ rest) := by
  subst h
  have hfind : strFind INPUT_DIRECTORY (INPUT_DIRECTORY ++ rest) = some 0 := by
    have hl : INPUT_DIRECTORY ++ rest
        = '.' :: ("./input".toList ++ rest) := rfl
    have hpre := isPrefixOf_append INPUT_DIRECTORY rest
    rw [hl] at hpre ⊢
    simp only [strFind]
    rw [if_pos hpre]
  unfold derive_output_path
  rw [hfind]
  simp only [Option.map_some']
  unfold strReplace
  have hdrop : (INPUT_DIRECTORY ++ rest).drop (0 + INPUT_DIRECTORY.length) = rest := by
    rw [Nat.zero_add]
    exact List.drop_left _ _
  rw [hdrop, List.take_zero, List.nil_append]

/-- witness for C7: the path "../input/cat.png" maps to "../output/cat.png". -/
theorem output_path_replaces_root_witness :
    derive_output_path ("../input/cat.png".toList)
      = some (("../output".toList) ++ ("/cat.png".toList)) :=
  output_path_replaces_root ("../input/cat.png".toList) ("/cat.png".toList)
    (by decide)

/-! ## Consumer loop error propagation (box_blur.cpp lines 258-288, C6) -/

/-- consumer_func's processing of the sequence of work items it pops
(lines 274-286), with the external codec passed as parameters: `load`
models load_image (lines 70-98, which throws runtime_error when stbi_load
fails) and `write` models write_image (lines 101-123, which throws when
stbi_write_png fails); `Except.error` is a thrown C++ exception. An image
is its list of channels; each channel is blurred with FILTER_SIZE as in
lines 281-284. The loop body has no try/catch, so a thrown exception
propagates out of consumer_func, terminating the consumer: the run stops
at the first failing item (and when find fails on a path without the
input-root prefix, replace throws std::out_of_range, likewise uncaught).
Returns the items processed to completion, in order. -/
def consumeItems (load : String → Except String (List (List (List Nat))))
    (write : List Char → List (List (List Nat)) → Except String Unit) :
    List String → Except String (List String)
  | [] => Except.ok []
  | image_name :: rest => do
      let input_image ← load image_name
      let output_image := input_image.map (fun ch => apply_box_blur ch FILTER_SIZE)
      match derive_output_path image_name.toList with
      | none => Except.error "std::out_of_range"
      | some output_image_path => do
          let _ ← write output_image_path output_image
          let processed ← consumeItems load write rest
          Except.ok (image_name :: processed)

/-- C6 (code_bug): the consumer does NOT log and continue on an item-level
error: when load_image fails on an item, the exception propagates out of
the uncaught loop, the remaining items are never processed, and the whole
run of the consumer ends with that error. -/
theorem consumer_error_propagates
    (load : String → Except String (List (List (List Nat))))
    (write : List Char → List (List (List Nat)) → Except String Unit)
    (bad : String) (rest : List String) (e : String)
    (h : load bad = Except.error e) :
    consumeItems load write (bad :: rest) = Except.error e := by
  unfold consumeItems
  rw [h]
  rfl

/-- witness for C6: with a decoder failing on "../input/corrupt.png", the
consumer run over a corrupt item followed by a good item aborts with the
decode error instead of skipping to the good item. -/
theorem consumer_error_propagates_witness :
    consumeItems
      (fun name => if name = "../input/corrupt.png" then
          Except.error "Failed to load image ../input/corrupt.png"
        else Except.ok [[[0]]])
      (fun _ _ => Except.ok ())
      ["../input/corrupt.png", "../input/ok.png"]
      = Except.error "Failed to load image ../input/corrupt.png" :=
  consumer_error_propagates _ _ "../input/corrupt.png" ["../input/ok.png"]
    "Failed to load image ../input/corrupt.png" (by simp)

/-! ## Interleaving model of the synchronization (C8)

The mutex m, the condition variables and the wait loops of producer_func
(lines 231-246) and consumer_func (lines 263-277) are modelled as a
small-step transition system over explicit task control locations. The
buffer capacity is a parameter cap; the program fixes cap = BUFFER_SIZE. -/

/-- role of a task: running producer_func or consumer_func. -/
inductive Role
  | producer
  | consumer
deriving DecidableEq

/-- control location of a task inside one queue operation:
`acquire` is the unique_lock constructor wanting the mutex (line 231/263);
`check` holds the mutex and is about to test the while condition
(line 234/266); `waiting` is suspended inside wait() with the mutex
released (line 236/268); `wake` has been woken (by notify_one or
spuriously) and wait() is reacquiring the mutex before returning;
`critical` has exited the while loop with the guard false, still holding
the mutex, about to run add_buffer / get_buffer (line 242/274); `done` has
finished the operation and released the mutex. -/
inductive Loc
  | acquire
  | check
  | waiting
  | wake
  | critical
  | done
deriving DecidableEq

/-- control state of one task. -/
structure TaskState where
  role : Role
  loc : Loc
deriving DecidableEq

/-- global configuration: the shared unsigned counter, the mutex owner (a
task id), and the control state of every task (ids are list positions). -/
structure Config where
  counter : Nat
  lock : Option Nat
  tasks : List TaskState
deriving DecidableEq

/-- one small step of task `t`, faithful to the monitor discipline of
producer_func and consumer_func: entering the monitor requires the mutex
to be free; the while-condition test happens under the mutex; wait()
releases the mutex and suspends; a woken task reacquires the mutex and
loops back to re-test the condition; add_buffer / get_buffer run only
after the guard was seen false under the mutex, and release it when the
iteration ends. Wakeups are always enabled, covering both notify_one and
spurious wakeups. none: task `t` cannot step now (mutex busy, finished,
or no such task). -/
def stepTask (cap : Nat) (cfg : Config) (t : Nat) : Option Config :=
  match cfg.tasks[t]? with
  | none => none
  | some ts =>
    match ts.loc with
    | Loc.acquire =>
        if cfg.lock = none then
          some { cfg with
                 lock := some t
                 tasks := cfg.tasks.set t ⟨ts.role, Loc.check⟩ }
        else none
    | Loc.check =>
        if cfg.lock = some t then
          match ts.role with
          | Role.producer =>
              if cfg.counter = cap then
                some { cfg with
                       lock := none
                       tasks := cfg.tasks.set t ⟨ts.role, Loc.waiting⟩ }
              else
                some { cfg with tasks := cfg.tasks.set t ⟨ts.role, Loc.critical⟩ }
          | Role.consumer =>
              if cfg.counter = 0 then
                some { cfg with
                       lock := none
                       tasks := cfg.tasks.set t ⟨ts.role, Loc.waiting⟩ }
              else
                some { cfg with tasks := cfg.tasks.set t ⟨ts.role, Loc.critical⟩ }
        else none
    | Loc.waiting =>
        some { cfg with tasks := cfg.tasks.set t ⟨ts.role, Loc.wake⟩ }
    | Loc.wake =>
        if cfg.lock = none then
          some { cfg with
                 lock := some t
                 tasks := cfg.tasks.set t ⟨ts.role, Loc.check⟩ }
        else none
    | Loc.critical =>
        if cfg.lock = some t then
          match ts.role with
          | Role.producer =>
              some { counter := (cfg.counter + 1) % U32
                     lock := none
                     tasks := cfg.tasks.set t ⟨ts.role, Loc.done⟩ }
          | Role.consumer =>
              some { counter := (cfg.counter + (U32 - 1)) % U32
                     lock := none
                     tasks := cfg.tasks.set t ⟨ts.role, Loc.done⟩ }
        else none
    | Loc.done => none

/-- run of an interleaving: the listed task ids step in order. -/
def runTrace (cap : Nat) : Config → List Nat → Option Config
  | cfg, [] => some cfg
  | cfg, t :: tr =>
      match stepTask cap cfg t with
      | some cfg2 => runTrace cap cfg2 tr
      | none => none

/-- invariant of the synchronization: the counter is within capacity, the
mutex is held by exactly the tasks at `check` or `critical` (so a
suspended task never holds it), and a task at `critical` saw its guard
false under the mutex: a producer enters add_buffer only with the buffer
not full, a consumer enters get_buffer only with it not empty. -/
def Inv (cap : Nat) (cfg : Config) : Prop :=
  cfg.counter ≤ cap ∧
  ∀ t, (h : t < cfg.tasks.length) →
    (((cfg.tasks.get ⟨t, h⟩).loc = Loc.check ∨
        (cfg.tasks.get ⟨t, h⟩).loc = Loc.critical) ↔ cfg.lock = some t) ∧
    ((cfg.tasks.get ⟨t, h⟩).loc = Loc.critical →
      ((cfg.tasks.get ⟨t, h⟩).role = Role.producer → cfg.counter ≠ cap) ∧
      ((cfg.tasks.get ⟨t, h⟩).role = Role.consumer → cfg.counter ≠ 0))

instance decidableInv (cap : Nat) (cfg : Config) : Decidable (Inv cap cfg) := by
  unfold Inv
  infer_instance

theorem get_of_getElemOpt (l : List TaskState) (u : Nat) (ts : TaskState)
    (hget : l[u]? = some ts) :
    ∃ (hu : u < l.length), l.get ⟨u, hu⟩ = ts := by
  cases hlt : Nat.decLt u l.length with
  | isTrue h =>
      refine ⟨h, ?_⟩
      have h2 : l[u]? = some (l.get ⟨u, h⟩) := by
        rw [List.getElem?_eq_getElem h]
        simp [List.get_eq_getElem]
      rw [hget] at h2
      exact (Option.some.injEq _ _).mp h2.symm
  | isFalse h =>
      exfalso
      rw [List.getElem?_eq_none (by omega)] at hget
      exact absurd hget (by simp)

theorem get_set_self (l : List TaskState) (u : Nat) (a : TaskState)
    (h : u < (l.set u a).length) : (l.set u a).get ⟨u, h⟩ = a := by
  simp [List.get_eq_getElem, List.getElem_set]

theorem get_set_other (l : List TaskState) (u v : Nat) (a : TaskState)
    (hne : u ≠ v) (h : v < (l.set u a).length) :
    (l.set u a).get ⟨v, h⟩ = l.get ⟨v, by simpa using h⟩ := by
  simp [List.get_eq_getElem, List.getElem_set, hne]

/-- classification of a successful step: exactly one of the nine transition
shapes applies, with the exact successor configuration. -/
theorem step_cases (cap : Nat) (cfg : Config) (u : Nat) (cfg2 : Config)
    (hstep : stepTask cap cfg u = some cfg2) :
    ∃ (hu : u < cfg.tasks.length),
      ((cfg.tasks.get ⟨u, hu⟩).loc = Loc.acquire ∧ cfg.lock = none ∧
        cfg2 = { counter := cfg.counter, lock := some u,
                 tasks := cfg.tasks.set u ⟨(cfg.tasks.get ⟨u, hu⟩).role, Loc.check⟩ }) ∨
      ((cfg.tasks.get ⟨u, hu⟩).loc = Loc.check ∧
        (cfg.tasks.get ⟨u, hu⟩).role = Role.producer ∧ cfg.lock = some u ∧
        cfg.counter = cap ∧
        cfg2 = { counter := cfg.counter, lock := none,
                 tasks := cfg.tasks.set u ⟨(cfg.tasks.get ⟨u, hu⟩).role, Loc.waiting⟩ }) ∨
      ((cfg.tasks.get ⟨u, hu⟩).loc = Loc.check ∧
        (cfg.tasks.get ⟨u, hu⟩).role = Role.producer ∧ cfg.lock = some u ∧
        cfg.counter ≠ cap ∧
        cfg2 = { counter := cfg.counter, lock := cfg.lock,
                 tasks := cfg.tasks.set u ⟨(cfg.tasks.get ⟨u, hu⟩).role, Loc.critical⟩ }) ∨
      ((cfg.tasks.get ⟨u, hu⟩).loc = Loc.check ∧
        (cfg.tasks.get ⟨u, hu⟩).role = Role.consumer ∧ cfg.lock = some u ∧
        cfg.counter = 0 ∧
        cfg2 = { counter := cfg.counter, lock := none,
                 tasks := cfg.tasks.set u ⟨(cfg.tasks.get ⟨u, hu⟩).role, Loc.waiting⟩ }) ∨
      ((cfg.tasks.get ⟨u, hu⟩).loc = Loc.check ∧
        (cfg.tasks.get ⟨u, hu⟩).role = Role.consumer ∧ cfg.lock = some u ∧
        cfg.counter ≠ 0 ∧
        cfg2 = { counter := cfg.counter, lock := cfg.lock,
                 tasks := cfg.tasks.set u ⟨(cfg.tasks.get ⟨u, hu⟩).role, Loc.critical⟩ }) ∨
      ((cfg.tasks.get ⟨u, hu⟩).loc = Loc.waiting ∧
        cfg2 = { counter := cfg.counter, lock := cfg.lock,
                 tasks := cfg.tasks.set u ⟨(cfg.tasks.get ⟨u, hu⟩).role, Loc.wake⟩ }) ∨
      ((cfg.tasks.get ⟨u, hu⟩).loc = Loc.wake ∧ cfg.lock = none ∧
        cfg2 = { counter := cfg.counter, lock := some u,
                 tasks := cfg.tasks.set u ⟨(cfg.tasks.get ⟨u, hu⟩).role, Loc.check⟩ }) ∨
      ((cfg.tasks.get ⟨u, hu⟩).loc = Loc.critical ∧
        (cfg.tasks.get ⟨u, hu⟩).role = Role.producer ∧ cfg.lock = some u ∧
        cfg2 = { counter := (cfg.counter + 1) % U32, lock := none,
                 tasks := cfg.tasks.set u ⟨(cfg.tasks.get ⟨u, hu⟩).role, Loc.done⟩ }) ∨
      ((cfg.tasks.get ⟨u, hu⟩).loc = Loc.critical ∧
        (cfg.tasks.get ⟨u, hu⟩).role = Role.consumer ∧ cfg.lock = some u ∧
        cfg2 = { counter := (cfg.counter + (U32 - 1)) % U32, lock := none,
                 tasks := cfg.tasks.set u ⟨(cfg.tasks.get ⟨u, hu⟩).role, Loc.done⟩ }) := by
  unfold stepTask at hstep
  cases hget : cfg.tasks[u]? with
  | none => rw [hget] at hstep; exact absurd hstep (by simp)
  | some ts =>
    rw [hget] at hstep
    obtain ⟨r, loc⟩ := ts
    obtain ⟨hu, hts⟩ := get_of_getElemOpt cfg.tasks u ⟨r, loc⟩ hget
    refine ⟨hu, ?_⟩
    rw [hts]
    cases loc with
    | acquire =>
        dsimp only at hstep ⊢
        by_cases hlk : cfg.lock = none
        · rw [if_pos hlk] at hstep
          simp only [Option.some.injEq] at hstep
          exact Or.inl ⟨rfl, hlk, hstep.symm⟩
        · rw [if_neg hlk] at hstep
          exact absurd hstep (by simp)
    | check =>
        dsimp only at hstep ⊢
        by_cases hlk : cfg.lock = some u
        · rw [if_pos hlk] at hstep
          cases r with
          | producer =>
              dsimp only at hstep
              by_cases hfull : cfg.counter = cap
              · rw [if_pos hfull] at hstep
                simp only [Option.some.injEq] at hstep
                exact Or.inr (Or.inl ⟨rfl, rfl, hlk, hfull, hstep.symm⟩)
              · rw [if_neg hfull] at hstep
                simp only [Option.some.injEq] at hstep
                exact Or.inr (Or.inr (Or.inl ⟨rfl, rfl, hlk, hfull, hstep.symm⟩))
          | consumer =>
              dsimp only at hstep
              by_cases hzero : cfg.counter = 0
              · rw [if_pos hzero] at hstep
                simp only [Option.some.injEq] at hstep
                exact Or.inr (Or.inr (Or.inr (Or.inl ⟨rfl, rfl, hlk, hzero, hstep.symm⟩)))
              · rw [if_neg hzero] at hstep
                simp only [Option.some.injEq] at hstep
                exact Or.inr (Or.inr (Or.inr (Or.inr (Or.inl
                  ⟨rfl, rfl, hlk, hzero, hstep.symm⟩))))
        · rw [if_neg hlk] at hstep
          exact absurd hstep (by simp)
    | waiting =>
        dsimp only at hstep ⊢
        simp only [Option.some.injEq] at hstep
        exact Or.inr (Or.inr (Or.inr (Or.inr (Or.inr (Or.inl ⟨rfl, hstep.symm⟩)))))
    | wake =>
        dsimp only at hstep ⊢
        by_cases hlk : cfg.lock = none
        · rw [if_pos hlk] at hstep
          simp only [Option.some.injEq] at hstep
          exact Or.inr (Or.inr (Or.inr (Or.inr (Or.inr (Or.inr (Or.inl
            ⟨rfl, hlk, hstep.symm⟩))))))
        · rw [if_neg hlk] at hstep
          exact absurd hstep (by simp)
    | critical =>
        dsimp only at hstep ⊢
        by_cases hlk : cfg.lock = some u
        · rw [if_pos hlk] at hstep
          cases r with
          | producer =>
              dsimp only at hstep
              simp only [Option.some.injEq] at hstep
              exact Or.inr (Or.inr (Or.inr (Or.inr (Or.inr (Or.inr (Or.inr (Or.inl
                ⟨rfl, rfl, hlk, hstep.symm⟩)))))))
          | consumer =>
              dsimp only at hstep
              simp only [Option.some.injEq] at hstep
              exact Or.inr (Or.inr (Or.inr (Or.inr (Or.inr (Or.inr (Or.inr (Or.inr
                ⟨rfl, rfl, hlk, hstep.symm⟩)))))))
        · rw [if_neg hlk] at hstep
          exact absurd hstep (by simp)
    | done =>
        dsimp only at hstep
        exact absurd hstep (by simp)

/-- preservation helper: updating one task preserves the invariant when the
new counter, lock and location agree with it. -/
theorem inv_update (cap : Nat) (cfg : Config) (u : Nat)
    (r : Role) (lnew : Loc) (lk : Option Nat) (cnt : Nat)
    (hinv : Inv cap cfg)
    (hcnt : cnt ≤ cap)
    (hulock : (lnew = Loc.check ∨ lnew = Loc.critical) ↔ lk = some u)
    (hothers : ∀ v, v ≠ u → (cfg.lock = some v ↔ lk = some v))
    (hucrit : lnew = Loc.critical →
      (r = Role.producer → cnt ≠ cap) ∧ (r = Role.consumer → cnt ≠ 0))
    (hocrit : ∀ v, (hv : v < cfg.tasks.length) → v ≠ u →
      (cfg.tasks.get ⟨v, hv⟩).loc = Loc.critical →
      ((cfg.tasks.get ⟨v, hv⟩).role = Role.producer → cnt ≠ cap) ∧
      ((cfg.tasks.get ⟨v, hv⟩).role = Role.consumer → cnt ≠ 0)) :
    Inv cap { counter := cnt, lock := lk, tasks := cfg.tasks.set u ⟨r, lnew⟩ } := by
  obtain ⟨hc0, htasks⟩ := hinv
  refine ⟨hcnt, ?_⟩
  intro t ht
  have ht0 : t < cfg.tasks.length := by simpa using ht
  by_cases htu : t = u
  · subst htu
    rw [get_set_self cfg.tasks t ⟨r, lnew⟩ ht]
    exact ⟨hulock, hucrit⟩
  · rw [get_set_other cfg.tasks u t ⟨r, lnew⟩ (fun he => htu he.symm) ht]
    obtain ⟨hiff, hcrit⟩ := htasks t ht0
    refine ⟨?_, ?_⟩
    · rw [hiff]
      exact hothers t htu
    · intro hcl
      exact hocrit t ht0 htu hcl

theorem others_from_none (cfg : Config) (u : Nat) (hlk : cfg.lock = none) :
    ∀ v, v ≠ u → (cfg.lock = some v ↔ some u = some v) := by
  intro v hv
  rw [hlk]
  constructor
  · intro h
    exact absurd h (by simp)
  · intro h
    rw [Option.some.injEq] at h
    exact absurd h.symm hv

theorem others_from_self (cfg : Config) (u : Nat) (hlk : cfg.lock = some u) :
    ∀ v, v ≠ u → (cfg.lock = some v ↔ (none : Option Nat) = some v) := by
  intro v hv
  rw [hlk]
  constructor
  · intro h
    rw [Option.some.injEq] at h
    exact absurd h.symm hv
  · intro h
    exact absurd h (by simp)

theorem others_same (cfg : Config) (u : Nat) :
    ∀ v, v ≠ u → (cfg.lock = some v ↔ cfg.lock = some v) :=
  fun _ _ => Iff.rfl

/-- with the mutex held by `u`, no other task is at `critical`, so any
claim about other critical tasks holds vacuously. -/
theorem no_other_critical (cap : Nat) (cfg : Config) (u : Nat) (hinv : Inv cap cfg)
    (hlk : cfg.lock = some u) (cnt : Nat) :
    ∀ v, (hv : v < cfg.tasks.length) → v ≠ u →
      (cfg.tasks.get ⟨v, hv⟩).loc = Loc.critical →
      ((cfg.tasks.get ⟨v, hv⟩).role = Role.producer → cnt ≠ cap) ∧
      ((cfg.tasks.get ⟨v, hv⟩).role = Role.consumer → cnt ≠ 0) := by
  intro v hv hne hcl
  exfalso
  have h := (hinv.2 v hv).1.mp (Or.inr hcl)
  rw [hlk, Option.some.injEq] at h
  exact hne h.symm

theorem same_counter_critical (cap : Nat) (cfg : Config) (u : Nat) (hinv : Inv cap cfg) :
    ∀ v, (hv : v < cfg.tasks.length) → v ≠ u →
      (cfg.tasks.get ⟨v, hv⟩).loc = Loc.critical →
      ((cfg.tasks.get ⟨v, hv⟩).role = Role.producer → cfg.counter ≠ cap) ∧
      ((cfg.tasks.get ⟨v, hv⟩).role = Role.consumer → cfg.counter ≠ 0) := by
  intro v hv _ hcl
  exact (hinv.2 v hv).2 hcl

/-- every step preserves the synchronization invariant. -/
theorem inv_step (cap : Nat) (hcap : cap < U32) (cfg cfg2 : Config) (u : Nat)
    (hinv : Inv cap cfg) (hstep : stepTask cap cfg u = some cfg2) :
    Inv cap cfg2 := by
  obtain ⟨hu, hcase⟩ := step_cases cap cfg u cfg2 hstep
  have hc0 := hinv.1
  have hU : U32 = 4294967296 := rfl
  rcases hcase with ⟨hloc, hlk, rfl⟩ | ⟨hloc, hrole, hlk, hfull, rfl⟩ |
    ⟨hloc, hrole, hlk, hfull, rfl⟩ | ⟨hloc, hrole, hlk, hzero, rfl⟩ |
    ⟨hloc, hrole, hlk, hzero, rfl⟩ | ⟨hloc, rfl⟩ | ⟨hloc, hlk, rfl⟩ |
    ⟨hloc, hrole, hlk, rfl⟩ | ⟨hloc, hrole, hlk, rfl⟩
  · exact inv_update cap cfg u _ Loc.check (some u) cfg.counter hinv hc0
      (by simp) (others_from_none cfg u hlk)
      (fun h => absurd h (by decide)) (same_counter_critical cap cfg u hinv)
  · exact inv_update cap cfg u _ Loc.waiting none cfg.counter hinv hc0
      (by simp) (others_from_self cfg u hlk)
      (fun h => absurd h (by decide)) (same_counter_critical cap cfg u hinv)
  · exact inv_update cap cfg u _ Loc.critical cfg.lock cfg.counter hinv hc0
      (by simp [hlk]) (others_same cfg u)
      (fun _ => ⟨fun _ => hfull, fun hcon => by
        rw [hrole] at hcon
        exact absurd hcon (by decide)⟩)
      (no_other_critical cap cfg u hinv hlk cfg.counter)
  · exact inv_update cap cfg u _ Loc.waiting none cfg.counter hinv hc0
      (by simp) (others_from_self cfg u hlk)
      (fun h => absurd h (by decide)) (same_counter_critical cap cfg u hinv)
  · exact inv_update cap cfg u _ Loc.critical cfg.lock cfg.counter hinv hc0
      (by simp [hlk]) (others_same cfg u)
      (fun _ => ⟨fun hpro => by
        rw [hrole] at hpro
        exact absurd hpro (by decide), fun _ => hzero⟩)
      (no_other_critical cap cfg u hinv hlk cfg.counter)
  · refine inv_update cap cfg u _ Loc.wake cfg.lock cfg.counter hinv hc0
      ?_ (others_same cfg u)
      (fun h => absurd h (by decide)) (same_counter_critical cap cfg u hinv)
    constructor
    · intro h
      rcases h with h | h
      · exact absurd h (by decide)
      · exact absurd h (by decide)
    · intro h
      exfalso
      have h2 := (hinv.2 u hu).1.mpr h
      rw [hloc] at h2
      rcases h2 with h2 | h2
      · exact absurd h2 (by decide)
      · exact absurd h2 (by decide)
  · exact inv_update cap cfg u _ Loc.check (some u) cfg.counter hinv hc0
      (by simp) (others_from_none cfg u hlk)
      (fun h => absurd h (by decide)) (same_counter_critical cap cfg u hinv)
  · have hne2 : cfg.counter ≠ cap := ((hinv.2 u hu).2 hloc).1 hrole
    refine inv_update cap cfg u _ Loc.done none ((cfg.counter + 1) % U32) hinv
      ?_ (by simp) (others_from_self cfg u hlk)
      (fun h => absurd h (by decide)) (no_other_critical cap cfg u hinv hlk _)
    rw [hU] at hcap ⊢
    omega
  · have hne2 : cfg.counter ≠ 0 := ((hinv.2 u hu).2 hloc).2 hrole
    refine inv_update cap cfg u _ Loc.done none ((cfg.counter + (U32 - 1)) % U32) hinv
      ?_ (by simp) (others_from_self cfg u hlk)
      (fun h => absurd h (by decide)) (no_other_critical cap cfg u hinv hlk _)
    rw [hU] at hcap ⊢
    omega

theorem get_set_preserves (cfg : Config) (u t : Nat) (a : TaskState)
    (ht : t < cfg.tasks.length) (hne : u ≠ t) :
    ∃ (ht2 : t < (cfg.tasks.set u a).length),
      (cfg.tasks.set u a).get ⟨t, ht2⟩ = cfg.tasks.get ⟨t, ht⟩ := by
  have ht2 : t < (cfg.tasks.set u a).length := by simpa using ht
  exact ⟨ht2, get_set_other cfg.tasks u t a hne ht2⟩

/-- while the buffer is full, any step that is not a consumer's get_buffer
keeps it full and keeps a producer suspended in its wait loop (one of the
locations waiting / wake / check). -/
theorem step_keeps_full (cap : Nat) (t : Nat) (cfg cfg2 : Config) (u : Nat)
    (hinv : Inv cap cfg)
    (hfull : cfg.counter = cap)
    (ht : t < cfg.tasks.length)
    (hrole : (cfg.tasks.get ⟨t, ht⟩).role = Role.producer)
    (hloc : (cfg.tasks.get ⟨t, ht⟩).loc = Loc.waiting ∨
      (cfg.tasks.get ⟨t, ht⟩).loc = Loc.wake ∨
      (cfg.tasks.get ⟨t, ht⟩).loc = Loc.check)
    (hstep : stepTask cap cfg u = some cfg2)
    (hnotpop : ¬ ∃ (hu : u < cfg.tasks.length),
      (cfg.tasks.get ⟨u, hu⟩).role = Role.consumer ∧
      (cfg.tasks.get ⟨u, hu⟩).loc = Loc.critical) :
    cfg2.counter = cap ∧ ∃ (ht2 : t < cfg2.tasks.length),
      (cfg2.tasks.get ⟨t, ht2⟩).role = Role.producer ∧
      ((cfg2.tasks.get ⟨t, ht2⟩).loc = Loc.waiting ∨
        (cfg2.tasks.get ⟨t, ht2⟩).loc = Loc.wake ∨
        (cfg2.tasks.get ⟨t, ht2⟩).loc = Loc.check) := by
  obtain ⟨hu, hcase⟩ := step_cases cap cfg u cfg2 hstep
  rcases hcase with ⟨huloc, hlk, rfl⟩ | ⟨huloc, hurole, hlk, hfull2, rfl⟩ |
    ⟨huloc, hurole, hlk, hfull2, rfl⟩ | ⟨huloc, hurole, hlk, hzero, rfl⟩ |
    ⟨huloc, hurole, hlk, hzero, rfl⟩ | ⟨huloc, rfl⟩ | ⟨huloc, hlk, rfl⟩ |
    ⟨huloc, hurole, hlk, rfl⟩ | ⟨huloc, hurole, hlk, rfl⟩
  · refine ⟨hfull, ?_⟩
    by_cases hut : u = t
    · subst hut
      rcases hloc with h | h | h <;> rw [huloc] at h <;> exact absurd h (by decide)
    · obtain ⟨ht2, heq⟩ := get_set_preserves cfg u t _ ht hut
      exact ⟨ht2, by rw [heq]; exact hrole, by rw [heq]; exact hloc⟩
  · refine ⟨hfull, ?_⟩
    by_cases hut : u = t
    · subst hut
      refine ⟨by simpa using hu, ?_, ?_⟩
      · rw [get_set_self]
        exact hurole
      · rw [get_set_self]
        exact Or.inl rfl
    · obtain ⟨ht2, heq⟩ := get_set_preserves cfg u t _ ht hut
      exact ⟨ht2, by rw [heq]; exact hrole, by rw [heq]; exact hloc⟩
  · exact absurd hfull hfull2
  · refine ⟨hfull, ?_⟩
    by_cases hut : u = t
    · subst hut
      rw [hurole] at hrole
      exact absurd hrole (by decide)
    · obtain ⟨ht2, heq⟩ := get_set_preserves cfg u t _ ht hut
      exact ⟨ht2, by rw [heq]; exact hrole, by rw [heq]; exact hloc⟩
  · refine ⟨hfull, ?_⟩
    by_cases hut : u = t
    · subst hut
      rw [hurole] at hrole
      exact absurd hrole (by decide)
    · obtain ⟨ht2, heq⟩ := get_set_preserves cfg u t _ ht hut
      exact ⟨ht2, by rw [heq]; exact hrole, by rw [heq]; exact hloc⟩
  · refine ⟨hfull, ?_⟩
    by_cases hut : u = t
    · subst hut
      refine ⟨by simpa using hu, ?_, ?_⟩
      · rw [get_set_self]
        exact hrole
      · rw [get_set_self]
        exact Or.inr (Or.inl rfl)
    · obtain ⟨ht2, heq⟩ := get_set_preserves cfg u t _ ht hut
      exact ⟨ht2, by rw [heq]; exact hrole, by rw [heq]; exact hloc⟩
  · refine ⟨hfull, ?_⟩
    by_cases hut : u = t
    · subst hut
      refine ⟨by simpa using hu, ?_, ?_⟩
      · rw [get_set_self]
        exact hrole
      · rw [get_set_self]
        exact Or.inr (Or.inr rfl)
    · obtain ⟨ht2, heq⟩ := get_set_preserves cfg u t _ ht hut
      exact ⟨ht2, by rw [heq]; exact hrole, by rw [heq]; exact hloc⟩
  · exact absurd hfull (((hinv.2 u hu).2 huloc).1 hurole)
  · exact absurd ⟨hu, hurole, huloc⟩ hnotpop

/-- while the buffer is empty, any step that is not a producer's add_buffer
keeps it empty and keeps a consumer suspended in its wait loop. -/
theorem step_keeps_empty (cap : Nat) (t : Nat) (cfg cfg2 : Config) (u : Nat)
    (hinv : Inv cap cfg)
    (hempty : cfg.counter = 0)
    (ht : t < cfg.tasks.length)
    (hrole : (cfg.tasks.get ⟨t, ht⟩).role = Role.consumer)
    (hloc : (cfg.tasks.get ⟨t, ht⟩).loc = Loc.waiting ∨
      (cfg.tasks.get ⟨t, ht⟩).loc = Loc.wake ∨
      (cfg.tasks.get ⟨t, ht⟩).loc = Loc.check)
    (hstep : stepTask cap cfg u = some cfg2)
    (hnotpush : ¬ ∃ (hu : u < cfg.tasks.length),
      (cfg.tasks.get ⟨u, hu⟩).role = Role.producer ∧
      (cfg.tasks.get ⟨u, hu⟩).loc = Loc.critical) :
    cfg2.counter = 0 ∧ ∃ (ht2 : t < cfg2.tasks.length),
      (cfg2.tasks.get ⟨t, ht2⟩).role = Role.consumer ∧
      ((cfg2.tasks.get ⟨t, ht2⟩).loc = Loc.waiting ∨
        (cfg2.tasks.get ⟨t, ht2⟩).loc = Loc.wake ∨
        (cfg2.tasks.get ⟨t, ht2⟩).loc = Loc.check) := by
  obtain ⟨hu, hcase⟩ := step_cases cap cfg u cfg2 hstep
  rcases hcase with ⟨huloc, hlk, rfl⟩ | ⟨huloc, hurole, hlk, hfull2, rfl⟩ |
    ⟨huloc, hurole, hlk, hfull2, rfl⟩ | ⟨huloc, hurole, hlk, hzero, rfl⟩ |
    ⟨huloc, hurole, hlk, hzero, rfl⟩ | ⟨huloc, rfl⟩ | ⟨huloc, hlk, rfl⟩ |
    ⟨huloc, hurole, hlk, rfl⟩ | ⟨huloc, hurole, hlk, rfl⟩
  · refine ⟨hempty, ?_⟩
    by_cases hut : u = t
    · subst hut
      rcases hloc with h | h | h <;> rw [huloc] at h <;> exact absurd h (by decide)
    · obtain ⟨ht2, heq⟩ := get_set_preserves cfg u t _ ht hut
      exact ⟨ht2, by rw [heq]; exact hrole, by rw [heq]; exact hloc⟩
  · refine ⟨hempty, ?_⟩
    by_cases hut : u = t
    · subst hut
      rw [hurole] at hrole
      exact absurd hrole (by decide)
    · obtain ⟨ht2, heq⟩ := get_set_preserves cfg u t _ ht hut
      exact ⟨ht2, by rw [heq]; exact hrole, by rw [heq]; exact hloc⟩
  · refine ⟨hempty, ?_⟩
    by_cases hut : u = t
    · subst hut
      rw [hurole] at hrole
      exact absurd hrole (by decide)
    · obtain ⟨ht2, heq⟩ := get_set_preserves cfg u t _ ht hut
      exact ⟨ht2, by rw [heq]; exact hrole, by rw [heq]; exact hloc⟩
  · refine ⟨hempty, ?_⟩
    by_cases hut : u = t
    · subst hut
      refine ⟨by simpa using hu, ?_, ?_⟩
      · rw [get_set_self]
        exact hurole
      · rw [get_set_self]
        exact Or.inl rfl
    · obtain ⟨ht2, heq⟩ := get_set_preserves cfg u t _ ht hut
      exact ⟨ht2, by rw [heq]; exact hrole, by rw [heq]; exact hloc⟩
  · exact absurd hempty hzero
  · refine ⟨hempty, ?_⟩
    by_cases hut : u = t
    · subst hut
      refine ⟨by simpa using hu, ?_, ?_⟩
      · rw [get_set_self]
        exact hrole
      · rw [get_set_self]
        exact Or.inr (Or.inl rfl)
    · obtain ⟨ht2, heq⟩ := get_set_preserves cfg u t _ ht hut
      exact ⟨ht2, by rw [heq]; exact hrole, by rw [heq]; exact hloc⟩
  · refine ⟨hempty, ?_⟩
    by_cases hut : u = t
    · subst hut
      refine ⟨by simpa using hu, ?_, ?_⟩
      · rw [get_set_self]
        exact hrole
      · rw [get_set_self]
        exact Or.inr (Or.inr rfl)
    · obtain ⟨ht2, heq⟩ := get_set_preserves cfg u t _ ht hut
      exact ⟨ht2, by rw [heq]; exact hrole, by rw [heq]; exact hloc⟩
  · exact absurd ⟨hu, hurole, huloc⟩ hnotpush
  · exact absurd hempty (((hinv.2 u hu).2 huloc).2 hurole)

theorem runTrace_cons_some (cap : Nat) (cfg : Config) (u : Nat) (tr : List Nat)
    (cfg2 : Config) (h : stepTask cap cfg u = some cfg2) :
    runTrace cap cfg (u :: tr) = runTrace cap cfg2 tr := by
  simp only [runTrace, h]

theorem runTrace_cons_none (cap : Nat) (cfg : Config) (u : Nat) (tr : List Nat)
    (h : stepTask cap cfg u = none) :
    runTrace cap cfg (u :: tr) = none := by
  simp only [runTrace, h]

/-- a producer suspended (or re-checking) while the buffer is full cannot
reach add_buffer without a consumer's get_buffer occurring first. -/
theorem blocked_push_aux (cap : Nat) (hcap : cap < U32) (t : Nat) :
    ∀ (tr : List Nat) (cfg cfg1 : Config),
    Inv cap cfg → cfg.counter = cap →
    ∀ (ht : t < cfg.tasks.length),
    (cfg.tasks.get ⟨t, ht⟩).role = Role.producer →
    ((cfg.tasks.get ⟨t, ht⟩).loc = Loc.waiting ∨
      (cfg.tasks.get ⟨t, ht⟩).loc = Loc.wake ∨
      (cfg.tasks.get ⟨t, ht⟩).loc = Loc.check) →
    runTrace cap cfg tr = some cfg1 →
    ∀ (ht1 : t < cfg1.tasks.length),
    (cfg1.tasks.get ⟨t, ht1⟩).loc = Loc.critical →
    ∃ ta u tb, tr = ta ++ u :: tb ∧
      ∃ cm, runTrace cap cfg ta = some cm ∧
        ∃ (hu : u < cm.tasks.length),
          (cm.tasks.get ⟨u, hu⟩).role = Role.consumer ∧
          (cm.tasks.get ⟨u, hu⟩).loc = Loc.critical := by
  intro tr
  induction tr with
  | nil =>
      intro cfg cfg1 hinv hfull ht hrole hloc hrun ht1 hcrit
      simp only [runTrace, Option.some.injEq] at hrun
      subst hrun
      have he : cfg.tasks.get ⟨t, ht⟩ = cfg.tasks.get ⟨t, ht1⟩ := rfl
      rw [he, hcrit] at hloc
      rcases hloc with h | h | h
      · exact absurd h (by decide)
      · exact absurd h (by decide)
      · exact absurd h (by decide)
  | cons u tr ih =>
      intro cfg cfg1 hinv hfull ht hrole hloc hrun ht1 hcrit
      cases hstep : stepTask cap cfg u with
      | none =>
          rw [runTrace_cons_none cap cfg u tr hstep] at hrun
          exact absurd hrun (by simp)
      | some cfg2 =>
          rw [runTrace_cons_some cap cfg u tr cfg2 hstep] at hrun
          by_cases hpop : ∃ (hu : u < cfg.tasks.length),
              (cfg.tasks.get ⟨u, hu⟩).role = Role.consumer ∧
              (cfg.tasks.get ⟨u, hu⟩).loc = Loc.critical
          · exact ⟨[], u, tr, rfl, cfg, rfl, hpop⟩
          · obtain ⟨hfull2, ht2, hrole2, hloc2⟩ :=
              step_keeps_full cap t cfg cfg2 u hinv hfull ht hrole hloc hstep hpop
            have hinv2 := inv_step cap hcap cfg cfg2 u hinv hstep
            obtain ⟨ta, u2, tb, htr, cm, hrunm, hex⟩ :=
              ih cfg2 cfg1 hinv2 hfull2 ht2 hrole2 hloc2 hrun ht1 hcrit
            refine ⟨u :: ta, u2, tb, by rw [htr]; rfl, cm, ?_, hex⟩
            rw [runTrace_cons_some cap cfg u ta cfg2 hstep]
            exact hrunm

/-- a consumer suspended (or re-checking) while the buffer is empty cannot
reach get_buffer without a producer's add_buffer occurring first. -/
theorem blocked_pop_aux (cap : Nat) (hcap : cap < U32) (t : Nat) :
    ∀ (tr : List Nat) (cfg cfg1 : Config),
    Inv cap cfg → cfg.counter = 0 →
    ∀ (ht : t < cfg.tasks.length),
    (cfg.tasks.get ⟨t, ht⟩).role = Role.consumer →
    ((cfg.tasks.get ⟨t, ht⟩).loc = Loc.waiting ∨
      (cfg.tasks.get ⟨t, ht⟩).loc = Loc.wake ∨
      (cfg.tasks.get ⟨t, ht⟩).loc = Loc.check) →
    runTrace cap cfg tr = some cfg1 →
    ∀ (ht1 : t < cfg1.tasks.length),
    (cfg1.tasks.get ⟨t, ht1⟩).loc = Loc.critical →
    ∃ ta u tb, tr = ta ++ u :: tb ∧
      ∃ cm, runTrace cap cfg ta = some cm ∧
        ∃ (hu : u < cm.tasks.length),
          (cm.tasks.get ⟨u, hu⟩).role = Role.producer ∧
          (cm.tasks.get ⟨u, hu⟩).loc = Loc.critical := by
  intro tr
  induction tr with
  | nil =>
      intro cfg cfg1 hinv hempty ht hrole hloc hrun ht1 hcrit
      simp only [runTrace, Option.some.injEq] at hrun
      subst hrun
      have he : cfg.tasks.get ⟨t, ht⟩ = cfg.tasks.get ⟨t, ht1⟩ := rfl
      rw [he, hcrit] at hloc
      rcases hloc with h | h | h
      · exact absurd h (by decide)
      · exact absurd h (by decide)
      · exact absurd h (by decide)
  | cons u tr ih =>
      intro cfg cfg1 hinv hempty ht hrole hloc hrun ht1 hcrit
      cases hstep : stepTask cap cfg u with
      | none =>
          rw [runTrace_cons_none cap cfg u tr hstep] at hrun
          exact absurd hrun (by simp)
      | some cfg2 =>
          rw [runTrace_cons_some cap cfg u tr cfg2 hstep] at hrun
          by_cases hpush : ∃ (hu : u < cfg.tasks.length),
              (cfg.tasks.get ⟨u, hu⟩).role = Role.producer ∧
              (cfg.tasks.get ⟨u, hu⟩).loc = Loc.critical
          · exact ⟨[], u, tr, rfl, cfg, rfl, hpush⟩
          · obtain ⟨hempty2, ht2, hrole2, hloc2⟩ :=
              step_keeps_empty cap t cfg cfg2 u hinv hempty ht hrole hloc hstep hpush
            have hinv2 := inv_step cap hcap cfg cfg2 u hinv hstep
            obtain ⟨ta, u2, tb, htr, cm, hrunm, hex⟩ :=
              ih cfg2 cfg1 hinv2 hempty2 ht2 hrole2 hloc2 hrun ht1 hcrit
            refine ⟨u :: ta, u2, tb, by rw [htr]; rfl, cm, ?_, hex⟩
            rw [runTrace_cons_some cap cfg u ta cfg2 hstep]
            exact hrunm

/-- C8: the blocking discipline of the bounded buffer, for any capacity cap
below 2^32 (the program uses cap = BUFFER_SIZE). Given a producer suspended
in its wait loop while the buffer is full, every continuation in which it
reaches add_buffer contains an earlier get_buffer step by some consumer
(conjunct 1); symmetrically, a consumer suspended while the buffer is empty
reaches get_buffer only after some producer's add_buffer (conjunct 2); a
suspended task does not hold the mutex (conjuncts 3 and 4); and after every
wakeup the task first reacquires the mutex and re-tests its wait-loop
condition before proceeding: a wakeup only moves waiting to wake, a wake
step only reaches the condition re-test at check, and a producer (resp.
consumer) that re-tests while the buffer is still full (resp. empty) goes
back to waiting instead of entering the critical section (conjuncts 5-7). -/
theorem blocking_discipline (cap : Nat) (hcap : cap < U32)
    (cfgA : Config) (tA : Nat) (hinvA : Inv cap cfgA) (hfullA : cfgA.counter = cap)
    (htA : tA < cfgA.tasks.length)
    (hroleA : (cfgA.tasks.get ⟨tA, htA⟩).role = Role.producer)
    (hlocA : (cfgA.tasks.get ⟨tA, htA⟩).loc = Loc.waiting)
    (trA : List Nat) (cfgA1 : Config) (hrunA : runTrace cap cfgA trA = some cfgA1)
    (htA1 : tA < cfgA1.tasks.length)
    (hcritA : (cfgA1.tasks.get ⟨tA, htA1⟩).loc = Loc.critical)
    (cfgB : Config) (tB : Nat) (hinvB : Inv cap cfgB) (hemptyB : cfgB.counter = 0)
    (htB : tB < cfgB.tasks.length)
    (hroleB : (cfgB.tasks.get ⟨tB, htB⟩).role = Role.consumer)
    (hlocB : (cfgB.tasks.get ⟨tB, htB⟩).loc = Loc.waiting)
    (trB : List Nat) (cfgB1 : Config) (hrunB : runTrace cap cfgB trB = some cfgB1)
    (htB1 : tB < cfgB1.tasks.length)
    (hcritB : (cfgB1.tasks.get ⟨tB, htB1⟩).loc = Loc.critical) :
    (∃ ta u tb, trA = ta ++ u :: tb ∧
      ∃ cm, runTrace cap cfgA ta = some cm ∧
        ∃ (hu : u < cm.tasks.length),
          (cm.tasks.get ⟨u, hu⟩).role = Role.consumer ∧
          (cm.tasks.get ⟨u, hu⟩).loc = Loc.critical) ∧
    (∃ ta u tb, trB = ta ++ u :: tb ∧
      ∃ cm, runTrace cap cfgB ta = some cm ∧
        ∃ (hu : u < cm.tasks.length),
          (cm.tasks.get ⟨u, hu⟩).role = Role.producer ∧
          (cm.tasks.get ⟨u, hu⟩).loc = Loc.critical) ∧
    cfgA.lock ≠ some tA ∧
    cfgB.lock ≠ some tB ∧
    (∀ (cfg cfg2 : Config) (w : Nat) (hw : w < cfg.tasks.length),
      (cfg.tasks.get ⟨w, hw⟩).loc = Loc.waiting →
      stepTask cap cfg w = some cfg2 →
      ∃ (hw2 : w < cfg2.tasks.length), (cfg2.tasks.get ⟨w, hw2⟩).loc = Loc.wake) ∧
    (∀ (cfg cfg2 : Config) (w : Nat) (hw : w < cfg.tasks.length),
      (cfg.tasks.get ⟨w, hw⟩).loc = Loc.wake →
      stepTask cap cfg w = some cfg2 →
      ∃ (hw2 : w < cfg2.tasks.length), (cfg2.tasks.get ⟨w, hw2⟩).loc = Loc.check) ∧
    (∀ (cfg cfg2 : Config) (w : Nat) (hw : w < cfg.tasks.length),
      (cfg.tasks.get ⟨w, hw⟩).loc = Loc.check →
      (cfg.tasks.get ⟨w, hw⟩).role = Role.producer →
      cfg.counter = cap →
      stepTask cap cfg w = some cfg2 →
      ∃ (hw2 : w < cfg2.tasks.length), (cfg2.tasks.get ⟨w, hw2⟩).loc = Loc.waiting) ∧
    (∀ (cfg cfg2 : Config) (w : Nat) (hw : w < cfg.tasks.length),
      (cfg.tasks.get ⟨w, hw⟩).loc = Loc.check →
      (cfg.tasks.get ⟨w, hw⟩).role = Role.consumer →
      cfg.counter = 0 →
      stepTask cap cfg w = some cfg2 →
      ∃ (hw2 : w < cfg2.tasks.length), (cfg2.tasks.get ⟨w, hw2⟩).loc = Loc.waiting) := by
  refine ⟨?_, ?_, ?_, ?_, ?_, ?_, ?_, ?_⟩
  · exact blocked_push_aux cap hcap tA trA cfgA cfgA1 hinvA hfullA htA hroleA
      (Or.inl hlocA) hrunA htA1 hcritA
  · exact blocked_pop_aux cap hcap tB trB cfgB cfgB1 hinvB hemptyB htB hroleB
      (Or.inl hlocB) hrunB htB1 hcritB
  · intro h
    have h2 := (hinvA.2 tA htA).1.mpr h
    rw [hlocA] at h2
    rcases h2 with h2 | h2
    · exact absurd h2 (by decide)
    · exact absurd h2 (by decide)
  · intro h
    have h2 := (hinvB.2 tB htB).1.mpr h
    rw [hlocB] at h2
    rcases h2 with h2 | h2
    · exact absurd h2 (by decide)
    · exact absurd h2 (by decide)
  · intro cfg cfg2 w hw hwloc hstep
    obtain ⟨hu, hcase⟩ := step_cases cap cfg w cfg2 hstep
    have he : cfg.tasks.get ⟨w, hu⟩ = cfg.tasks.get ⟨w, hw⟩ := rfl
    rw [he] at hcase
    rcases hcase with ⟨huloc, _, rfl⟩ | ⟨huloc, _, _, _, rfl⟩ |
      ⟨huloc, _, _, _, rfl⟩ | ⟨huloc, _, _, _, rfl⟩ | ⟨huloc, _, _, _, rfl⟩ |
      ⟨huloc, rfl⟩ | ⟨huloc, _, rfl⟩ | ⟨huloc, _, _, rfl⟩ | ⟨huloc, _, _, rfl⟩ <;>
      rw [hwloc] at huloc
    · exact absurd huloc (by decide)
    · exact absurd huloc (by decide)
    · exact absurd huloc (by decide)
    · exact absurd huloc (by decide)
    · exact absurd huloc (by decide)
    · refine ⟨by simpa using hw, ?_⟩
      rw [get_set_self]
    · exact absurd huloc (by decide)
    · exact absurd huloc (by decide)
    · exact absurd huloc (by decide)
  · intro cfg cfg2 w hw hwloc hstep
    obtain ⟨hu, hcase⟩ := step_cases cap cfg w cfg2 hstep
    have he : cfg.tasks.get ⟨w, hu⟩ = cfg.tasks.get ⟨w, hw⟩ := rfl
    rw [he] at hcase
    rcases hcase with ⟨huloc, _, rfl⟩ | ⟨huloc, _, _, _, rfl⟩ |
      ⟨huloc, _, _, _, rfl⟩ | ⟨huloc, _, _, _, rfl⟩ | ⟨huloc, _, _, _, rfl⟩ |
      ⟨huloc, rfl⟩ | ⟨huloc, _, rfl⟩ | ⟨huloc, _, _, rfl⟩ | ⟨huloc, _, _, rfl⟩ <;>
      rw [hwloc] at huloc
    · exact absurd huloc (by decide)
    · exact absurd huloc (by decide)
    · exact absurd huloc (by decide)
    · exact absurd huloc (by decide)
    · exact absurd huloc (by decide)
    · exact absurd huloc (by decide)
    · refine ⟨by simpa using hw, ?_⟩
      rw [get_set_self]
    · exact absurd huloc (by decide)
    · exact absurd huloc (by decide)
  · intro cfg cfg2 w hw hwloc hwrole hwfull hstep
    obtain ⟨hu, hcase⟩ := step_cases cap cfg w cfg2 hstep
    have he : cfg.tasks.get ⟨w, hu⟩ = cfg.tasks.get ⟨w, hw⟩ := rfl
    rw [he] at hcase
    rcases hcase with ⟨huloc, _, rfl⟩ | ⟨huloc, _, _, _, rfl⟩ |
      ⟨huloc, _, _, hfull2, rfl⟩ | ⟨huloc, hurole, _, _, rfl⟩ |
      ⟨huloc, hurole, _, _, rfl⟩ | ⟨huloc, rfl⟩ | ⟨huloc, _, rfl⟩ |
      ⟨huloc, _, _, rfl⟩ | ⟨huloc, _, _, rfl⟩
    · rw [hwloc] at huloc
      exact absurd huloc (by decide)
    · refine ⟨by simpa using hw, ?_⟩
      rw [get_set_self]
    · exact absurd hwfull hfull2
    · rw [hwrole] at hurole
      exact absurd hurole (by decide)
    · rw [hwrole] at hurole
      exact absurd hurole (by decide)
    · rw [hwloc] at huloc
      exact absurd huloc (by decide)
    · rw [hwloc] at huloc
      exact absurd huloc (by decide)
    · rw [hwloc] at huloc
      exact absurd huloc (by decide)
    · rw [hwloc] at huloc
      exact absurd huloc (by decide)
  · intro cfg cfg2 w hw hwloc hwrole hwempty hstep
    obtain ⟨hu, hcase⟩ := step_cases cap cfg w cfg2 hstep
    have he : cfg.tasks.get ⟨w, hu⟩ = cfg.tasks.get ⟨w, hw⟩ := rfl
    rw [he] at hcase
    rcases hcase with ⟨huloc, _, rfl⟩ | ⟨huloc, hurole, _, _, rfl⟩ |
      ⟨huloc, hurole, _, _, rfl⟩ | ⟨huloc, _, _, _, rfl⟩ |
      ⟨huloc, _, _, hzero2, rfl⟩ | ⟨huloc, rfl⟩ | ⟨huloc, _, rfl⟩ |
      ⟨huloc, hurole, _, rfl⟩ | ⟨huloc, _, _, rfl⟩
    · rw [hwloc] at huloc
      exact absurd huloc (by decide)
    · rw [hwrole] at hurole
      exact absurd hurole (by decide)
    · rw [hwrole] at hurole
      exact absurd hurole (by decide)
    · refine ⟨by simpa using hw, ?_⟩
      rw [get_set_self]
    · exact absurd hwempty hzero2
    · rw [hwloc] at huloc
      exact absurd huloc (by decide)
    · rw [hwloc] at huloc
      exact absurd huloc (by decide)
    · rw [hwloc] at huloc
      exact absurd huloc (by decide)
    · rw [hwloc] at huloc
      exact absurd huloc (by decide)

/-- concrete scenario for the producer side of the blocking discipline at
capacity 1: task 0 has already pushed (buffer full), task 1 is a producer
suspended on the full buffer, task 2 is a consumer about to run. -/
def cfgAw : Config :=
  { counter := 1, lock := none,
    tasks := [⟨Role.producer, Loc.done⟩, ⟨Role.producer, Loc.waiting⟩,
      ⟨Role.consumer, Loc.acquire⟩] }

/-- final configuration of the producer-side scenario: the consumer popped,
the suspended producer woke, re-checked, and reached add_buffer. -/
def cfgAw1 : Config :=
  { counter := 0, lock := some 1,
    tasks := [⟨Role.producer, Loc.done⟩, ⟨Role.producer, Loc.critical⟩,
      ⟨Role.consumer, Loc.done⟩] }

/-- concrete scenario for the consumer side at capacity 1: task 0 is a
producer about to run, task 1 is a consumer suspended on the empty buffer. -/
def cfgBw : Config :=
  { counter := 0, lock := none,
    tasks := [⟨Role.producer, Loc.acquire⟩, ⟨Role.consumer, Loc.waiting⟩] }

/-- final configuration of the consumer-side scenario. -/
def cfgBw1 : Config :=
  { counter := 1, lock := some 1,
    tasks := [⟨Role.producer, Loc.done⟩, ⟨Role.consumer, Loc.critical⟩] }

/-- witness for C8: at capacity 1, in the concrete run where a suspended
producer completes its push, a consumer's get_buffer occurs first, and in
the concrete run where a suspended consumer completes its pop, a
producer's add_buffer occurs first. -/
theorem blocking_discipline_witness :
    (∃ ta u tb, ([2, 2, 2, 1, 1, 1] : List Nat) = ta ++ u :: tb ∧
      ∃ cm, runTrace 1 cfgAw ta = some cm ∧
        ∃ (hu : u < cm.tasks.length),
          (cm.tasks.get ⟨u, hu⟩).role = Role.consumer ∧
          (cm.tasks.get ⟨u, hu⟩).loc = Loc.critical) ∧
    (∃ ta u tb, ([0, 0, 0, 1, 1, 1] : List Nat) = ta ++ u :: tb ∧
      ∃ cm, runTrace 1 cfgBw ta = some cm ∧
        ∃ (hu : u < cm.tasks.length),
          (cm.tasks.get ⟨u, hu⟩).role = Role.producer ∧
          (cm.tasks.get ⟨u, hu⟩).loc = Loc.critical) := by
  have h := blocking_discipline 1 (by decide)
    cfgAw 1 (by decide) (by decide) (by decide) (by decide) (by decide)
    [2, 2, 2, 1, 1, 1] cfgAw1 (by decide) (by decide) (by decide)
    cfgBw 1 (by decide) (by decide) (by decide) (by decide) (by decide)
    [0, 0, 0, 1, 1, 1] cfgBw1 (by decide) (by decide) (by decide)
  exact ⟨h.1, h.2.1⟩

end BoxBlur
